import Mathlib

/-!
A shallow embedding of `src/node-loader.ts` of the `resolve-dependencies`
repository, together with proofs about its loader orchestrator, glob
expander and resolver adapter.

Conventions of the embedding:
* JS strings are Lean `String`s; JS `String.prototype.startsWith` /
  `endsWith` are modelled character-wise (`strStartsWith`, `strEndsWith`).
* The dependency map `file.deps : { [key: string]: File | null }` is an
  insertion-ordered association list `Deps`.  A value is `none` for JS
  `null` (unresolved) and `some r` for a File reference (every File object
  is truthy in JS, so JS truthiness of a dependency value is `isSome`).
* The external collaborators (enhanced-resolve, globby, fs, the
  `gather-deps` parser) are a record `Fs` of pure functions: one `load`
  call consults each of them exactly like the awaited calls in the source,
  and the stages of `load` are strictly sequential, so the promise
  plumbing disappears in the embedding.
* `enhanced-resolve`'s callback is invoked once, either with an error or
  with a resolved path plus package description; `ResolveOutcome` is that
  alternative.
* Fallible calls (`gatherDependencies`, which may throw a parse error)
  return `Except String`.
-/

/-- JS `s.startsWith(p)`, modelled character-wise. -/
def strStartsWith (s p : String) : Bool := p.data.isPrefixOf s.data

/-- JS `s.endsWith(p)`, modelled character-wise. -/
def strEndsWith (s p : String) : Bool := p.data.isSuffixOf s.data

/-- Split a character list at `/` separators (auxiliary for `splitPath`). -/
def splitSegsAux : List Char → List Char → List (List Char)
  | [], acc => [acc.reverse]
  | c :: cs, acc => if c = '/' then acc.reverse :: splitSegsAux cs [] else splitSegsAux cs (c :: acc)

/-- Split a POSIX path into its nonempty segments. -/
def splitPath (p : String) : List String :=
  ((splitSegsAux p.data []).filter (fun seg => seg ≠ [])).map (fun seg => String.mk seg)

/-- Normalize path segments the way Node's `path.posix` does for absolute
paths: drop `.` segments and let `..` pop the previous segment (popping at
the root stays at the root). -/
def normalizeSegs (segs : List String) : List String :=
  segs.foldl (fun acc seg =>
    if seg = "." then acc
    else if seg = ".." then acc.dropLast
    else acc ++ [seg]) []

/-- Rejoin path segments with `/`. -/
def joinSegs : List String → String
  | [] => ""
  | [s] => s
  | s :: rest => s ++ "/" ++ joinSegs rest

/-- Node `path.join(base, p)` for an absolute `base` (the only way the
source uses it: the base is always a package directory or module root). -/
def joinPath (base p : String) : String :=
  "/" ++ joinSegs (normalizeSegs (splitPath base ++ splitPath p))

/-- Node `path.dirname` for an absolute path. -/
def dirname (p : String) : String :=
  "/" ++ joinSegs ((splitPath p).dropLast)

/-- Segments of `b` relative to `a`: drop the common prefix segments, then
one `..` per remaining segment of `a` followed by the rest of `b` (Node
`path.relative` on already-absolute normalized paths). -/
def relSegs : List String → List String → List String
  | x :: xs, y :: ys =>
    if x = y then relSegs xs ys else List.replicate (xs.length + 1) ".." ++ (y :: ys)
  | xs, ys => List.replicate xs.length ".." ++ ys

/-- Modelled from the spec: `ensureDottedRelative` is defined in the
repository's `file.ts`, which is absent from `src/`.  Per the spec (§4.3
step 2) it returns the path of `toPath` relative to `fromDir` in an
explicitly relative form: the plain relative path, prefixed with `./`
whenever it does not already start with a dot. -/
def ensureDottedRelative (fromDir toPath : String) : String :=
  let rel := joinSegs (relSegs (normalizeSegs (splitPath fromDir)) (normalizeSegs (splitPath toPath)))
  if strStartsWith rel "." then rel else "./" ++ rel

/-- A dependency value: `none` is JS `null` (unresolved), `some r` models a
resolved File reference (always truthy in JS). -/
abbrev DepVal := Option String

/-- `file.deps`, an insertion-ordered association list with unique keys. -/
abbrev Deps := List (String × DepVal)

/-- JS property read `deps[key]`: `some v` when the key is present. -/
def depsLookup : Deps → String → Option DepVal
  | [], _ => none
  | (k, v) :: rest, key => if k = key then some v else depsLookup rest key

/-- JS property write `deps[key] = val`: overwrite in place, or append. -/
def depsSet : Deps → String → DepVal → Deps
  | [], key, val => [(key, val)]
  | (k, v) :: rest, key, val =>
    if k = key then (k, val) :: rest else (k, v) :: depsSet rest key val

/-- The source's idiom `file.deps[key] = file.deps[key] || null`: keep a
truthy (resolved) value, otherwise store `null`.  Dependency values are
`File | null`, so JS truthiness is exactly `isSome`. -/
def depsOrNull (d : Deps) (key : String) : Deps :=
  match depsLookup d key with
  | some v => if v.isSome then depsSet d key v else depsSet d key none
  | none => depsSet d key none

/-- JS `Object.assign(target, src)` on dependency maps. -/
def depsAssign (target src : Deps) : Deps :=
  src.foldl (fun acc kv => depsSet acc kv.1 kv.2) target

/-- JS `Object.keys(deps)` (insertion order). -/
def depsKeys (d : Deps) : List String := d.map Prod.fst

/-- Parsed `package.json` contents, restricted to the fields
`node-loader.ts` reads: the declared-dependency names
(`Object.keys(pkg.dependencies)`), the `files` allowlist, and the
additional asset glob patterns consulted by `extraGlobs`. -/
structure Pkg where
  dependencies : Option (List String) := Option.none
  files : Option (List String) := Option.none
  assetGlobs : Option (List String) := Option.none
deriving Repr, DecidableEq

/-- The `File` entity of `file.ts` (the fields `node-loader.ts` touches). -/
structure File where
  absPath : String
  contents : Option String := Option.none
  deps : Deps := []
  variableImports : Bool := false
  package : Option Pkg := Option.none
  moduleRoot : Option String := Option.none
  contextExpanded : Bool := false
  realPath : Option String := Option.none
  size : Option Nat := Option.none
  realSize : Option Nat := Option.none
deriving Repr, DecidableEq

/-- Modelled from the spec: `createFile` is defined in `file.ts`, absent
from `src/`.  Per the spec (§3, lifecycle) it creates a fresh File
anchored at the given absolute path, with no contents, empty dependency
map, no package attachment and all flags clear. -/
def createFile (absPath : String) : File := { absPath := absPath }

/-- Modelled from the spec: `isNodeModule` is defined in `file.ts`, absent
from `src/`.  Per the spec's glossary a bare specifier (package name) is a
specifier not starting with a relative-path marker. -/
def isNodeModule (request : String) : Bool :=
  !(strStartsWith request ".") && !(strStartsWith request "/")

/-- Modelled from the spec: `nodeModuleGlobs` is defined in `file.ts`,
absent from `src/`.  Per the spec (§4.4 step 6) it yields the package's
declared file-allowlist patterns, falling back to a permissive default
pattern set when none are declared. -/
def nodeModuleGlobs (files : Option (List String)) : List String :=
  match files with
  | Option.some fs => fs
  | Option.none => ["**/*"]

/-- Modelled from the spec: `extraGlobs` is defined in `file.ts`, absent
from `src/`.  Per the spec (§4.4 step 6) it returns any additional
non-code asset glob patterns the package declares, or an empty list. -/
def extraGlobs (file : File) : List String :=
  match file.package with
  | Option.some p => p.assetGlobs.getD []
  | Option.none => []

/-- The one callback invocation `enhanced-resolve` makes: an error, or a
resolved path with the nearest package description file and its data. -/
inductive ResolveOutcome where
  | err (message : String)
  | ok (path : String) (descriptionFilePath : String) (descriptionFileData : Option Pkg)
deriving Repr, DecidableEq

/-- `export type Resolved = { absPath, pkgPath, pkg, warning }`. -/
structure Resolved where
  absPath : String
  pkgPath : String
  pkg : Option Pkg
  warning : String
deriving Repr, DecidableEq

/-- `resolveSync(from, request)`: starts from the all-empty result record
and lets the resolver's callback fill either `warning` (error case) or
`absPath`/`pkgPath`/`pkg` (success case). -/
def resolveSync (syncResolver : String → String → ResolveOutcome) (fromDir request : String) :
    Resolved :=
  match syncResolver fromDir request with
  | ResolveOutcome.err message =>
    { absPath := "", pkgPath := "", pkg := Option.none, warning := message }
  | ResolveOutcome.ok path dpath ddata =>
    { absPath := path, pkgPath := dpath, pkg := ddata, warning := "" }

/-- `resolve(from, request)`: identical callback logic to `resolveSync`,
completing through a promise in the source. -/
def resolve (resolver : String → String → ResolveOutcome) (fromDir request : String) : Resolved :=
  match resolver fromDir request with
  | ResolveOutcome.err message =>
    { absPath := "", pkgPath := "", pkg := Option.none, warning := message }
  | ResolveOutcome.ok path dpath ddata =>
    { absPath := path, pkgPath := dpath, pkg := ddata, warning := "" }

/-- `JsLoaderOptions.expand : 'none' | 'variable' | 'all'` (the string
`'variable'` is the constructor `var`). -/
inductive ExpandMode where
  | none
  | var
  | all
deriving Repr, DecidableEq

/-- `options.context`: inherited expansion context. -/
structure JsLoaderContext where
  moduleRoot : Option String := Option.none
  globs : Option (List String) := Option.none
  expanded : Bool := false
deriving Repr, DecidableEq

/-- `JsLoaderOptions` of `file.ts` (the fields `node-loader.ts` reads). -/
structure JsLoaderOptions where
  loadContent : Bool := true
  expand : ExpandMode := ExpandMode.none
  isEntry : Bool := false
  context : Option JsLoaderContext := Option.none
deriving Repr, DecidableEq

/-- `defaultOptions: JsLoaderOptions = { loadContent: true, expand: 'none', isEntry: false }`. -/
def defaultOptions : JsLoaderOptions := {}

/-- The result of `gatherDependencies`: discovered dependency map plus the
variable-import signal (`parseResult.variable`; `variable` is a Lean
keyword, hence the field name `variableImports`). -/
structure ParseResult where
  deps : Deps := []
  variableImports : Bool := false
deriving Repr, DecidableEq

/-- The two stat fields `node-loader.ts` reads. -/
structure Stats where
  size : Nat
  isSymbolicLink : Bool
deriving Repr, DecidableEq

/-- The external collaborators of `node-loader.ts`, as pure functions: the
enhanced-resolve resolver, `globby(globs, { cwd })`, `fs.readFile`,
`gatherDependencies` (which may throw: `Except.error` carries `e.stack`),
`fs.lstat`, `fs.stat` and `fs.realpath`. -/
structure Fs where
  resolver : String → String → ResolveOutcome
  globby : List String → String → List String
  readFile : String → String
  gatherDeps : String → Bool → Except String ParseResult
  lstat : String → Stats
  stat : String → Stats
  realpath : String → String

/-- The glob phase of `expand`: matched paths, made dotted-relative to
`fileDir`, self-filtered by the source's comparison
`file.absPath !== join(baseDir, relDep)`. -/
def globRelDeps (fs : Fs) (absPath fileDir baseDir : String) (globs : List String) :
    List String :=
  ((fs.globby globs baseDir).map (fun dep => ensureDottedRelative fileDir (joinPath baseDir dep))).filter
    (fun relDep => absPath != joinPath baseDir relDep)

/-- `expand`, first half: fold the surviving relative paths into the
dependency map with `deps[relDep] = deps[relDep] || null`. -/
def expandGlobDeps (fs : Fs) (file : File) (fileDir baseDir : String) (globs : List String) :
    Deps :=
  (globRelDeps fs file.absPath fileDir baseDir globs).foldl depsOrNull file.deps

/-- `expand`, second half: for each manifest-declared dependency name not
covered by a prefix of a current key (`currentDeps` is the snapshot
`Object.keys(file.deps)` taken after the glob phase), insert it
unresolved. -/
def manifestFold (currentDeps : List String) (declared : List String) (deps : Deps) : Deps :=
  declared.foldl (fun acc dependency =>
    if !(currentDeps.any (fun curDep => strStartsWith curDep dependency)) then
      depsOrNull acc dependency
    else acc) deps

/-- The guard `file.package && file.package.dependencies && ...` around the
manifest reconciliation. -/
def reconcileManifest (package : Option Pkg) (deps : Deps) : Deps :=
  let currentDeps := depsKeys deps
  match package with
  | Option.some p =>
    match p.dependencies with
    | Option.some declared => manifestFold currentDeps declared deps
    | Option.none => deps
  | Option.none => deps

/-- `async function expand(file, fileDir, baseDir, globs)`: glob phase then
manifest reconciliation, mutating only `file.deps`. -/
def expand (fs : Fs) (file : File) (fileDir baseDir : String) (globs : List String) : File :=
  { file with deps := reconcileManifest file.package (expandGlobDeps fs file fileDir baseDir globs) }

/-- `load`'s local `expandVariable = Boolean(options.expand === 'variable' && file.variableImports)`. -/
def expandVariableFlag (options : JsLoaderOptions) (variableImports : Bool) : Bool :=
  options.expand == ExpandMode.var && variableImports

/-- `load`'s local `expandAll = options.expand === 'all'`. -/
def expandAllFlag (options : JsLoaderOptions) : Bool :=
  options.expand == ExpandMode.all

/-- `load | { warning: string }`: the loader returns the populated File or
a structured warning; it never throws. -/
inductive LoadResult where
  | ok (file : File)
  | warning (w : String)
deriving Repr, DecidableEq

/-- `load`, step 4 (source lines 119–127): for JS-like files run
`gatherDependencies` on the contents, merge the discovered dependency map
with `Object.assign` and record the variable-import flag; a thrown parse
error becomes the warning text
`Error parsing file: "<absPath>"\n<e.stack>`. -/
def parseStage (fs : Fs) (absPath : String) (isJs : Bool) (file : File) : Except String File :=
  if isJs then
    match fs.gatherDeps (file.contents.getD "") (strEndsWith absPath ".mjs") with
    | Except.ok parseResult =>
      Except.ok { file with
        deps := depsAssign file.deps parseResult.deps,
        variableImports := parseResult.variableImports }
    | Except.error e =>
      Except.error ("Error parsing file: \"" ++ absPath ++ "\"\n" ++ e)
  else Except.ok file

/-- `load`, steps 5–7 (source lines 129–152): the package branch (attach
package and moduleRoot, add the manifest file as an unresolved dependency,
policy-gated allowlist expansion marking `contextExpanded`, then the
always-honored asset-glob expansion) or else the inherited-context branch. -/
def expandStage (fs : Fs) (options : JsLoaderOptions) (request : String) (r : Resolved)
    (file : File) : File :=
  let fileDir := dirname file.absPath
  let expandVariable := expandVariableFlag options file.variableImports
  if isNodeModule request && r.pkg.isSome && (r.pkgPath != "") then
    let file := { file with
      package := r.pkg,
      deps := depsSet file.deps (ensureDottedRelative fileDir r.pkgPath) Option.none }
    let pkgDir := dirname r.pkgPath
    let file := { file with moduleRoot := Option.some pkgDir }
    let file :=
      if expandVariable || expandAllFlag options then
        { expand fs file fileDir pkgDir (nodeModuleGlobs (file.package.bind Pkg.files)) with
            contextExpanded := true }
      else file
    if (extraGlobs file).length != 0 then expand fs file fileDir pkgDir (extraGlobs file)
    else file
  else
    match options.context with
    | Option.some ctx =>
      if expandVariable && (ctx.moduleRoot.getD "" != "") && !ctx.expanded then
        { expand fs file fileDir (ctx.moduleRoot.getD "") (nodeModuleGlobs ctx.globs) with
            contextExpanded := true }
      else file
    | Option.none => file

/-- `load`, steps 8–9 (source lines 154–164): drop contents when
`options.loadContent` is false, `lstat` the resolved path, resolve and
`stat` the symlink target when the path is a symbolic link, and record the
lstat size. -/
def finishFile (fs : Fs) (options : JsLoaderOptions) (file : File) : File :=
  let file := if !options.loadContent then { file with contents := Option.none } else file
  let stats := fs.lstat file.absPath
  let file :=
    if stats.isSymbolicLink then
      { file with
        realPath := Option.some (fs.realpath file.absPath),
        realSize := Option.some (fs.stat file.absPath).size }
    else file
  { file with size := Option.some stats.size }

/-- `export async function load(workingDirectory, request, options)`:
resolve, early-return a warning on resolution failure, create the File,
classify and read content, parse (early-return a warning on a parse
error), expand, and finish with the stat step. -/
def load (fs : Fs) (workingDirectory request : String)
    (options : JsLoaderOptions := defaultOptions) : LoadResult :=
  let r := resolve fs.resolver workingDirectory request
  if r.absPath = "" then LoadResult.warning r.warning
  else
    let file := createFile r.absPath
    let isJs := strEndsWith r.absPath ".js" || strEndsWith r.absPath ".mjs" || options.isEntry
    let file :=
      if isJs || strEndsWith r.absPath "json" then
        { file with contents := Option.some (fs.readFile r.absPath) }
      else file
    match parseStage fs r.absPath isJs file with
    | Except.error msg => LoadResult.warning msg
    | Except.ok file => LoadResult.ok (finishFile fs options (expandStage fs options request r file))

/-! ### Basic lemmas about the dependency-map operations -/

theorem isPrefixOf_self {α : Type} [BEq α] [LawfulBEq α] (l : List α) : l.isPrefixOf l = true := by
  induction l with
  | nil => rfl
  | cons a as ih => simp [List.isPrefixOf, ih]

theorem strStartsWith_refl (s : String) : strStartsWith s s = true := by
  simp [strStartsWith, isPrefixOf_self]

theorem depsLookup_set_self (d : Deps) (k : String) (v : DepVal) :
    depsLookup (depsSet d k v) k = some v := by
  induction d with
  | nil => simp [depsSet, depsLookup]
  | cons kv rest ih =>
    obtain ⟨k0, v0⟩ := kv
    by_cases h : k0 = k
    · simp [depsSet, depsLookup, h]
    · simp [depsSet, depsLookup, h, ih]

theorem depsLookup_set_ne (d : Deps) (k : String) (v : DepVal) (k' : String) (h : k' ≠ k) :
    depsLookup (depsSet d k v) k' = depsLookup d k' := by
  induction d with
  | nil => simp [depsSet, depsLookup, Ne.symm h]
  | cons kv rest ih =>
    obtain ⟨k0, v0⟩ := kv
    by_cases hk : k0 = k
    · simp [depsSet, depsLookup, hk, Ne.symm h]
    · by_cases hk' : k0 = k'
      · simp [depsSet, depsLookup, hk, hk', h]
      · simp [depsSet, depsLookup, hk, hk', ih]

theorem depsSet_eq_of_lookup (d : Deps) (k : String) (v : DepVal)
    (h : depsLookup d k = some v) : depsSet d k v = d := by
  induction d with
  | nil => simp [depsLookup] at h
  | cons kv rest ih =>
    obtain ⟨k0, v0⟩ := kv
    by_cases hk : k0 = k
    · simp [depsLookup, hk] at h
      subst h
      simp [depsSet, hk]
    · simp [depsLookup, hk] at h
      simp [depsSet, hk, ih h]

theorem depsOrNull_of_mem (d : Deps) (k : String) (v : DepVal)
    (h : depsLookup d k = some v) : depsOrNull d k = d := by
  unfold depsOrNull
  rw [h]
  cases v with
  | none => simpa using depsSet_eq_of_lookup d k none h
  | some s => simpa using depsSet_eq_of_lookup d k (some s) h

theorem depsLookup_orNull_self (d : Deps) (k : String) :
    depsLookup (depsOrNull d k) k = some ((depsLookup d k).getD none) := by
  unfold depsOrNull
  cases h : depsLookup d k with
  | none => simp [depsLookup_set_self]
  | some v =>
    cases v with
    | none => simp [depsLookup_set_self]
    | some s => simp [depsLookup_set_self]

theorem depsLookup_orNull_ne (d : Deps) (k k' : String) (h : k' ≠ k) :
    depsLookup (depsOrNull d k) k' = depsLookup d k' := by
  unfold depsOrNull
  cases hl : depsLookup d k with
  | none => simp [depsLookup_set_ne _ _ _ _ h]
  | some v => cases v <;> simp [depsLookup_set_ne _ _ _ _ h]

theorem depsLookup_orNull_mono (d : Deps) (k k' : String) (v : DepVal)
    (h : depsLookup d k = some v) : ∃ w, depsLookup (depsOrNull d k') k = some w := by
  by_cases hk : k = k'
  · subst hk
    exact ⟨_, depsLookup_orNull_self d k⟩
  · exact ⟨v, by rw [depsLookup_orNull_ne d k' k hk, h]⟩

theorem mem_depsKeys_iff (d : Deps) (k : String) :
    k ∈ depsKeys d ↔ ∃ v, depsLookup d k = some v := by
  induction d with
  | nil => simp [depsKeys, depsLookup]
  | cons kv rest ih =>
    obtain ⟨k0, v0⟩ := kv
    by_cases h : k0 = k
    · simp [depsKeys, depsLookup, h]
    · simpa [depsKeys, depsLookup, h, Ne.symm h] using ih

/-! ### Lemmas about the glob-insertion fold and the manifest fold -/

theorem foldl_orNull_lookup_mono (ks : List String) (d : Deps) (k : String) (v : DepVal)
    (h : depsLookup d k = some v) :
    ∃ w, depsLookup (ks.foldl depsOrNull d) k = some w := by
  induction ks generalizing d v with
  | nil => exact ⟨v, h⟩
  | cons a rest ih =>
    obtain ⟨w, hw⟩ := depsLookup_orNull_mono d k a v h
    exact ih (depsOrNull d a) w hw

theorem foldl_orNull_lookup_not_mem (ks : List String) (d : Deps) (k : String) (h : k ∉ ks) :
    depsLookup (ks.foldl depsOrNull d) k = depsLookup d k := by
  induction ks generalizing d with
  | nil => rfl
  | cons a rest ih =>
    have hr : k ∉ rest := fun hm => h (List.mem_cons_of_mem a hm)
    have ha : k ≠ a := fun e => h (e ▸ List.mem_cons_self a rest)
    rw [List.foldl_cons, ih (depsOrNull d a) hr, depsLookup_orNull_ne d a k ha]

theorem foldl_orNull_lookup_of_mem (ks : List String) (d : Deps) (k : String) (h : k ∈ ks) :
    depsLookup (ks.foldl depsOrNull d) k = some ((depsLookup d k).getD none) := by
  induction ks generalizing d with
  | nil => cases h
  | cons a rest ih =>
    by_cases ha : k = a
    · subst ha
      by_cases hr : k ∈ rest
      · rw [List.foldl_cons, ih (depsOrNull d k) hr, depsLookup_orNull_self]
        cases hd : depsLookup d k with
        | none => simp
        | some v => cases v <;> simp
      · rw [List.foldl_cons, foldl_orNull_lookup_not_mem rest _ k hr, depsLookup_orNull_self]
    · have hr : k ∈ rest := (List.mem_cons.mp h).resolve_left ha
      rw [List.foldl_cons, ih (depsOrNull d a) hr, depsLookup_orNull_ne d a k ha]

theorem foldl_orNull_eq_of_all_mem (ks : List String) (d : Deps)
    (h : ∀ k ∈ ks, ∃ v, depsLookup d k = some v) : ks.foldl depsOrNull d = d := by
  induction ks with
  | nil => rfl
  | cons a rest ih =>
    obtain ⟨v, hv⟩ := h a (List.mem_cons_self a rest)
    rw [List.foldl_cons, depsOrNull_of_mem d a v hv]
    exact ih (fun k hk => h k (List.mem_cons_of_mem a hk))

theorem manifestFold_lookup_mono (cur declared : List String) (d : Deps) (k : String)
    (v : DepVal) (h : depsLookup d k = some v) :
    ∃ w, depsLookup (manifestFold cur declared d) k = some w := by
  unfold manifestFold
  induction declared generalizing d v with
  | nil => exact ⟨v, h⟩
  | cons a rest ih =>
    rw [List.foldl_cons]
    by_cases hc : (cur.any (fun curDep => strStartsWith curDep a)) = true
    · simp only [hc, Bool.not_true, Bool.false_eq_true, if_false]
      exact ih d v h
    · simp only [Bool.not_eq_true] at hc
      simp only [hc, Bool.not_false, if_true]
      obtain ⟨w, hw⟩ := depsLookup_orNull_mono d k a v h
      exact ih (depsOrNull d a) w hw

theorem manifestFold_skip_all (cur declared : List String) (d : Deps)
    (h : ∀ dep ∈ declared, cur.any (fun curDep => strStartsWith curDep dep) = true) :
    manifestFold cur declared d = d := by
  unfold manifestFold
  induction declared with
  | nil => rfl
  | cons a rest ih =>
    rw [List.foldl_cons]
    have ha := h a (List.mem_cons_self a rest)
    simp only [ha, Bool.not_true, Bool.false_eq_true, if_false]
    exact ih (fun dep hd => h dep (List.mem_cons_of_mem a hd))

theorem depsLookup_orNull_preserve (d : Deps) (key k : String) (v : DepVal)
    (h : depsLookup d k = some v) : depsLookup (depsOrNull d key) k = some v := by
  by_cases hk : key = k
  · subst hk
    rw [depsOrNull_of_mem d key v h]
    exact h
  · rw [depsLookup_orNull_ne d key k (fun e => hk e.symm)]
    exact h

theorem foldl_orNull_preserve (ks : List String) (d : Deps) (k : String) (v : DepVal)
    (h : depsLookup d k = some v) : depsLookup (ks.foldl depsOrNull d) k = some v := by
  induction ks generalizing d with
  | nil => exact h
  | cons a rest ih =>
    exact ih (depsOrNull d a) (depsLookup_orNull_preserve d a k v h)

theorem manifestFold_nil (cur : List String) (d : Deps) : manifestFold cur [] d = d := rfl

theorem manifestFold_cons (cur : List String) (a : String) (rest : List String) (d : Deps) :
    manifestFold cur (a :: rest) d =
      manifestFold cur rest
        (if (cur.any (fun curDep => strStartsWith curDep a)) = true then d
         else depsOrNull d a) := by
  unfold manifestFold
  rw [List.foldl_cons]
  by_cases hc : (cur.any (fun curDep => strStartsWith curDep a)) = true <;> simp [hc]

theorem manifestFold_preserve (cur declared : List String) (d : Deps) (k : String) (v : DepVal)
    (h : depsLookup d k = some v) : depsLookup (manifestFold cur declared d) k = some v := by
  induction declared generalizing d with
  | nil => exact h
  | cons a rest ih =>
    rw [manifestFold_cons]
    by_cases hc : (cur.any (fun curDep => strStartsWith curDep a)) = true
    · rw [if_pos hc]
      exact ih d h
    · rw [if_neg hc]
      exact ih (depsOrNull d a) (depsLookup_orNull_preserve d a k v h)

theorem manifestFold_lookup_uncovered (cur : List String) (k : String)
    (hcov : cur.any (fun curDep => strStartsWith curDep k) = false) :
    ∀ (declared : List String) (d : Deps), k ∈ declared →
      (depsLookup d k = none ∨ depsLookup d k = some none) →
      depsLookup (manifestFold cur declared d) k = some none := by
  intro declared
  induction declared with
  | nil => intro d hmem _; cases hmem
  | cons a rest ih =>
    intro d hmem hval
    by_cases ha : a = k
    · subst ha
      rw [manifestFold_cons, if_neg (by rw [hcov]; exact Bool.false_ne_true)]
      have hl : depsLookup (depsOrNull d a) a = some none := by
        rw [depsLookup_orNull_self]
        rcases hval with hv | hv <;> rw [hv] <;> rfl
      exact manifestFold_preserve cur rest (depsOrNull d a) a none hl
    · have hrest : k ∈ rest := (List.mem_cons.mp hmem).resolve_left (fun e => ha e.symm)
      rw [manifestFold_cons]
      by_cases hc : (cur.any (fun curDep => strStartsWith curDep a)) = true
      · rw [if_pos hc]
        exact ih d hrest hval
      · rw [if_neg hc]
        refine ih (depsOrNull d a) hrest ?_
        rcases hval with hv | hv
        · left
          rw [depsLookup_orNull_ne d a k (fun e => ha e.symm)]
          exact hv
        · right
          exact depsLookup_orNull_preserve d a k none hv

theorem manifestFold_lookup_covered (cur declared : List String) (d : Deps) (k : String)
    (hcov : cur.any (fun curDep => strStartsWith curDep k) = true) :
    depsLookup (manifestFold cur declared d) k = depsLookup d k := by
  induction declared generalizing d with
  | nil => rfl
  | cons a rest ih =>
    rw [manifestFold_cons]
    by_cases ha : a = k
    · subst ha
      rw [if_pos hcov]
      exact ih d
    · by_cases hc : (cur.any (fun curDep => strStartsWith curDep a)) = true
      · rw [if_pos hc]
        exact ih d
      · rw [if_neg hc, ih (depsOrNull d a), depsLookup_orNull_ne d a k (fun e => ha e.symm)]

theorem depsLookup_eq_none_of_not_mem (d : Deps) (k : String) (h : k ∉ depsKeys d) :
    depsLookup d k = none := by
  cases hl : depsLookup d k with
  | none => rfl
  | some v => exact absurd ((mem_depsKeys_iff d k).mpr ⟨v, hl⟩) h

theorem reconcileManifest_preserve (pkg : Option Pkg) (d : Deps) (k : String) (v : DepVal)
    (h : depsLookup d k = some v) :
    depsLookup (reconcileManifest pkg d) k = some v := by
  cases pkg with
  | none => exact h
  | some p =>
    cases hd : p.dependencies with
    | none => simpa [reconcileManifest, hd] using h
    | some declared =>
      simpa [reconcileManifest, hd] using manifestFold_preserve (depsKeys d) declared d k v h

theorem expand_deps_eq (fs : Fs) (file : File) (fileDir baseDir : String) (globs : List String) :
    (expand fs file fileDir baseDir globs).deps =
      reconcileManifest file.package

        ((globRelDeps fs file.absPath fileDir baseDir globs).foldl depsOrNull file.deps) := rfl

theorem expand_twice_deps_eq (fs : Fs) (file : File) (fileDir baseDir : String)
    (globs : List String) :
    (expand fs (expand fs file fileDir baseDir globs) fileDir baseDir globs).deps =
      (expand fs file fileDir baseDir globs).deps := by
  have hL : globRelDeps fs (expand fs file fileDir baseDir globs).absPath fileDir baseDir globs =
      globRelDeps fs file.absPath fileDir baseDir globs := rfl
  have hpk : (expand fs file fileDir baseDir globs).package = file.package := rfl
  set L := globRelDeps fs file.absPath fileDir baseDir globs with hLdef
  set mid := L.foldl depsOrNull file.deps with hmid
  have hf1 : (expand fs file fileDir baseDir globs).deps = reconcileManifest file.package mid :=
    rfl
  set f1deps := reconcileManifest file.package mid with hf1d
  -- every glob-phase key survives into the reconciled map
  have hLmem : ∀ k ∈ L, ∃ w, depsLookup f1deps k = some w := by
    intro k hk
    have hmidk : depsLookup mid k = some ((depsLookup file.deps k).getD none) :=
      foldl_orNull_lookup_of_mem L file.deps k hk
    exact ⟨_, reconcileManifest_preserve file.package mid k _ hmidk⟩
  -- the second glob phase is the identity
  have hglob2 : L.foldl depsOrNull f1deps = f1deps :=
    foldl_orNull_eq_of_all_mem L f1deps hLmem
  -- the second manifest phase is the identity
  have hman2 : reconcileManifest file.package f1deps = f1deps := by
    cases hpkg : file.package with
    | none => rfl
    | some p =>
      cases hd : p.dependencies with
      | none => simp [reconcileManifest, hd]
      | some declared =>
        have hall : ∀ dep ∈ declared,
            (depsKeys f1deps).any (fun curDep => strStartsWith curDep dep) = true := by
          intro dep hdep
          by_cases hcov : (depsKeys mid).any (fun curDep => strStartsWith curDep dep) = true
          · obtain ⟨c, hc, hsw⟩ := List.any_eq_true.mp hcov
            obtain ⟨w, hw⟩ := (mem_depsKeys_iff mid c).mp hc
            have hcf1 : c ∈ depsKeys f1deps :=
              (mem_depsKeys_iff f1deps c).mpr
                ⟨w, reconcileManifest_preserve file.package mid c w hw⟩
            exact List.any_eq_true.mpr ⟨c, hcf1, hsw⟩
          · have hcov' : (depsKeys mid).any (fun curDep => strStartsWith curDep dep) = false :=
              Bool.not_eq_true _ ▸ (by simpa using hcov)
            have hnm : dep ∉ depsKeys mid := by
              intro hm
              have hx : (depsKeys mid).any (fun curDep => strStartsWith curDep dep) = true :=
                List.any_eq_true.mpr ⟨dep, hm, strStartsWith_refl dep⟩
              exact absurd hx hcov
            have hf1eq : f1deps = manifestFold (depsKeys mid) declared mid := by
              rw [hf1d, hpkg]
              simp [reconcileManifest, hd]
            have hdep1 : depsLookup f1deps dep = some none := by
              rw [hf1eq]
              exact manifestFold_lookup_uncovered (depsKeys mid) dep hcov' declared mid hdep
                (Or.inl (depsLookup_eq_none_of_not_mem mid dep hnm))
            exact List.any_eq_true.mpr
              ⟨dep, (mem_depsKeys_iff f1deps dep).mpr ⟨none, hdep1⟩, strStartsWith_refl dep⟩
        simp only [reconcileManifest, hd]
        exact manifestFold_skip_all (depsKeys f1deps) declared f1deps hall
  calc (expand fs (expand fs file fileDir baseDir globs) fileDir baseDir globs).deps
      = reconcileManifest file.package (L.foldl depsOrNull f1deps) := rfl
    _ = reconcileManifest file.package f1deps := by rw [hglob2]
    _ = f1deps := hman2

/-! ### Claim C3: manifest reconciliation with the prefix heuristic -/

/-- C3.  After `expand` runs on a File whose package manifest declares a
dependency mapping, every declared dependency name that no dependency key
existing at the reconciliation point (the keys after the glob-insertion
phase) starts with is present in `file.deps` unresolved (`null`); a
declared name that is a prefix of some existing key is not inserted (its
binding is whatever the glob phase left). -/
theorem expand_manifest_reconciliation (fs : Fs) (file : File) (fileDir baseDir : String)
    (globs : List String) (p : Pkg) (declared : List String) (dep : String)
    (hpkg : file.package = Option.some p)
    (hdecl : p.dependencies = Option.some declared)
    (hmem : dep ∈ declared) :
    ((depsKeys (expandGlobDeps fs file fileDir baseDir globs)).any
        (fun curDep => strStartsWith curDep dep) = false →
      depsLookup (expand fs file fileDir baseDir globs).deps dep = some Option.none)
    ∧ ((depsKeys (expandGlobDeps fs file fileDir baseDir globs)).any
        (fun curDep => strStartsWith curDep dep) = true →
      depsLookup (expand fs file fileDir baseDir globs).deps dep =
        depsLookup (expandGlobDeps fs file fileDir baseDir globs) dep) := by
  have he : (expand fs file fileDir baseDir globs).deps =
      manifestFold (depsKeys (expandGlobDeps fs file fileDir baseDir globs)) declared
        (expandGlobDeps fs file fileDir baseDir globs) := by
    rw [expand_deps_eq, hpkg]
    simp [reconcileManifest, hdecl, expandGlobDeps]
  constructor
  · intro hcov
    rw [he]
    have hnm : dep ∉ depsKeys (expandGlobDeps fs file fileDir baseDir globs) := by
      intro hm
      have hx : (depsKeys (expandGlobDeps fs file fileDir baseDir globs)).any
          (fun curDep => strStartsWith curDep dep) = true :=
        List.any_eq_true.mpr ⟨dep, hm, strStartsWith_refl dep⟩
      rw [hcov] at hx
      exact Bool.false_ne_true hx
    exact manifestFold_lookup_uncovered _ dep hcov declared _ hmem
      (Or.inl (depsLookup_eq_none_of_not_mem _ dep hnm))
  · intro hcov
    rw [he]
    exact manifestFold_lookup_covered _ declared _ dep hcov

/-- A concrete environment for the C3 witness: nothing globbed, one
declared dependency `left-pad`. -/
def fsC3 : Fs :=
  { resolver := fun _ _ => ResolveOutcome.err "unused",
    globby := fun _ _ => [],
    readFile := fun _ => "",
    gatherDeps := fun _ _ => Except.ok {},
    lstat := fun _ => { size := 0, isSymbolicLink := false },
    stat := fun _ => { size := 0, isSymbolicLink := false },
    realpath := fun p => p }

/-- The C3 witness File: a package declaring `left-pad`, no other deps. -/
def fileC3 : File :=
  { absPath := "/x/a.js",
    package := Option.some { dependencies := Option.some ["left-pad"] } }

/-- C3 witness: with no glob matches and no prior keys, the declared
`left-pad` ends up as an unresolved dependency key. -/
theorem expand_manifest_reconciliation_witness :
    depsLookup (expand fsC3 fileC3 "/x" "/x" []).deps "left-pad" = some Option.none :=
  (expand_manifest_reconciliation fsC3 fileC3 "/x" "/x" []
    { dependencies := Option.some ["left-pad"] } ["left-pad"] "left-pad"
    rfl rfl (by decide)).1 (by decide)

/-! ### Claim C4: expansion is idempotent and first-writer-wins -/

/-- C4.  Running `expand` a second time on the same File with the same
`fileDir`, `baseDir` and glob pattern set adds no new dependency key, and
never replaces an already-resolved (non-null) value of an existing key
with an unresolved (null) one. -/
theorem expand_idempotent_first_writer_wins (fs : Fs) (file : File) (fileDir baseDir : String)
    (globs : List String) :
    (depsKeys (expand fs (expand fs file fileDir baseDir globs) fileDir baseDir globs).deps =
      depsKeys (expand fs file fileDir baseDir globs).deps)
    ∧ (∀ (k r : String),
        depsLookup (expand fs file fileDir baseDir globs).deps k = some (Option.some r) →
        depsLookup (expand fs (expand fs file fileDir baseDir globs) fileDir baseDir globs).deps k
          = some (Option.some r)) := by
  rw [expand_twice_deps_eq]
  exact ⟨rfl, fun _ _ h => h⟩

/-- A concrete environment for the C4 witness. -/
def fsC4 : Fs :=
  { resolver := fun _ _ => ResolveOutcome.err "unused",
    globby := fun _ _ => ["b.js"],
    readFile := fun _ => "",
    gatherDeps := fun _ _ => Except.ok {},
    lstat := fun _ => { size := 0, isSymbolicLink := false },
    stat := fun _ => { size := 0, isSymbolicLink := false },
    realpath := fun p => p }

/-- The C4 witness File: one already-resolved dependency. -/
def fileC4 : File :=
  { absPath := "/x/a.js", deps := [("./a", Option.some "resolved")] }

/-- C4 witness: the already-resolved value of `./a` survives a repeated
expansion unchanged. -/
theorem expand_idempotent_first_writer_wins_witness :
    depsLookup (expand fsC4 (expand fsC4 fileC4 "/x" "/x" ["**"]) "/x" "/x" ["**"]).deps "./a"
      = some (Option.some "resolved") :=
  (expand_idempotent_first_writer_wins fsC4 fileC4 "/x" "/x" ["**"]).2 "./a" "resolved"
    (by decide)

/-! ### Claim C9: warning and absPath are mutually exclusive in Resolved -/

/-- C9.  For both `resolveSync` and `resolve`, a returned `Resolved` value
has a non-empty `warning` only if its `absPath` is empty: exactly one of
the two fields is meaningful per call. -/
theorem resolved_warning_exclusive (syncR asyncR : String → String → ResolveOutcome)
    (fromDir request : String) :
    ((resolveSync syncR fromDir request).warning ≠ "" →
      (resolveSync syncR fromDir request).absPath = "")
    ∧ ((resolve asyncR fromDir request).warning ≠ "" →
      (resolve asyncR fromDir request).absPath = "") := by
  constructor
  · intro h
    unfold resolveSync at h ⊢
    cases hc : syncR fromDir request with
    | err message => rfl
    | ok path dpath ddata =>
      rw [hc] at h
      simp at h
  · intro h
    unfold resolve at h ⊢
    cases hc : asyncR fromDir request with
    | err message => rfl
    | ok path dpath ddata =>
      rw [hc] at h
      simp at h

/-- C9 witness: a failing resolver outcome yields an empty `absPath` in
both variants. -/
theorem resolved_warning_exclusive_witness :
    (resolveSync (fun _ _ => ResolveOutcome.err "not found") "/w" "x").absPath = ""
    ∧ (resolve (fun _ _ => ResolveOutcome.err "not found") "/w" "x").absPath = "" :=
  ⟨(resolved_warning_exclusive (fun _ _ => ResolveOutcome.err "not found")
      (fun _ _ => ResolveOutcome.err "not found") "/w" "x").1 (by decide),
    (resolved_warning_exclusive (fun _ _ => ResolveOutcome.err "not found")
      (fun _ _ => ResolveOutcome.err "not found") "/w" "x").2 (by decide)⟩

/-! ### Claim C1: resolution failure yields a warning, never a File -/

/-- C1.  If the resolver fails (the spec's resolver contract supplies a
non-empty reason string), `load` returns exactly the failure value
`{warning}` with that non-empty message, and no File is constructed or
returned. -/
theorem load_resolution_failure (fs : Fs) (workingDirectory request : String)
    (options : JsLoaderOptions) (msg : String)
    (hres : fs.resolver workingDirectory request = ResolveOutcome.err msg)
    (hmsg : msg ≠ "") :
    load fs workingDirectory request options = LoadResult.warning msg
    ∧ msg ≠ ""
    ∧ ∀ f, load fs workingDirectory request options ≠ LoadResult.ok f := by
  have h1 : load fs workingDirectory request options = LoadResult.warning msg := by
    unfold load resolve
    rw [hres]
    rfl
  refine ⟨h1, hmsg, fun f hf => ?_⟩
  rw [h1] at hf
  exact LoadResult.noConfusion hf

/-- A concrete environment for the C1 witness: the resolver always fails. -/
def fsC1 : Fs :=
  { resolver := fun _ _ => ResolveOutcome.err "Cannot resolve module",
    globby := fun _ _ => [],
    readFile := fun _ => "",
    gatherDeps := fun _ _ => Except.ok {},
    lstat := fun _ => { size := 0, isSymbolicLink := false },
    stat := fun _ => { size := 0, isSymbolicLink := false },
    realpath := fun p => p }

/-- C1 witness: a concrete failing load returns the resolver's warning. -/
theorem load_resolution_failure_witness :
    load fsC1 "/w" "missing" defaultOptions = LoadResult.warning "Cannot resolve module" :=
  (load_resolution_failure fsC1 "/w" "missing" defaultOptions "Cannot resolve module" rfl
    (by decide)).1

/-! ### Claim C6: a parse failure becomes a warning with the path embedded -/

/-- C6.  For a JS-like file whose static extraction throws, `load` returns
the failure value whose message is exactly
`Error parsing file: "<absPath>"` followed by the diagnostic, so the
offending absolute path and the diagnostic are embedded; the failure is a
returned value, not a propagated exception (the embedding is a total
function). -/
theorem load_parse_failure (fs : Fs) (workingDirectory request : String)
    (options : JsLoaderOptions) (p dp : String) (dd : Option Pkg) (e : String)
    (hres : fs.resolver workingDirectory request = ResolveOutcome.ok p dp dd)
    (hp : p ≠ "")
    (hjs : (strEndsWith p ".js" || strEndsWith p ".mjs" || options.isEntry) = true)
    (herr : fs.gatherDeps (fs.readFile p) (strEndsWith p ".mjs") = Except.error e) :
    load fs workingDirectory request options =
      LoadResult.warning ("Error parsing file: \"" ++ p ++ "\"\n" ++ e)
    ∧ ∀ f, load fs workingDirectory request options ≠ LoadResult.ok f := by
  have h1 : load fs workingDirectory request options =
      LoadResult.warning ("Error parsing file: \"" ++ p ++ "\"\n" ++ e) := by
    unfold load resolve parseStage
    rw [hres]
    simp [if_neg hp, hjs, herr]
  refine ⟨h1, fun f hf => ?_⟩
  rw [h1] at hf
  exact LoadResult.noConfusion hf

/-- A concrete environment for the C6 witness: parsing always throws. -/
def fsC6 : Fs :=
  { resolver := fun _ _ => ResolveOutcome.ok "/w/a.js" "" Option.none,
    globby := fun _ _ => [],
    readFile := fun _ => "syntax error(",
    gatherDeps := fun _ _ => Except.error "SyntaxError: unexpected token",
    lstat := fun _ => { size := 0, isSymbolicLink := false },
    stat := fun _ => { size := 0, isSymbolicLink := false },
    realpath := fun p => p }

/-- C6 witness: the parse failure surfaces as a warning embedding the
absolute path and the diagnostic. -/
theorem load_parse_failure_witness :
    load fsC6 "/w" "./a.js" defaultOptions =
      LoadResult.warning ("Error parsing file: \"/w/a.js\"\nSyntaxError: unexpected token") :=
  (load_parse_failure fsC6 "/w" "./a.js" defaultOptions "/w/a.js" "" Option.none
    "SyntaxError: unexpected token" rfl (by decide) (by decide) rfl).1

/-! ### Stage lemmas for the load orchestrator -/

/-- The value of `contextExpanded` after the expansion section of `load`,
for a File entering with the flag clear. -/
def contextExpandedAfter (options : JsLoaderOptions) (request : String) (r : Resolved)
    (variableImports : Bool) : Bool :=
  if isNodeModule request && r.pkg.isSome && (r.pkgPath != "") then
    expandVariableFlag options variableImports || expandAllFlag options
  else
    match options.context with
    | Option.some ctx =>
      expandVariableFlag options variableImports && (ctx.moduleRoot.getD "" != "") && !ctx.expanded
    | Option.none => false

theorem expandStage_absPath (fs : Fs) (o : JsLoaderOptions) (req : String) (r : Resolved)
    (f : File) : (expandStage fs o req r f).absPath = f.absPath := by
  unfold expandStage
  dsimp only
  split
  · split <;> split <;> rfl
  · split
    · split <;> rfl
    · rfl

theorem expandStage_contents (fs : Fs) (o : JsLoaderOptions) (req : String) (r : Resolved)
    (f : File) : (expandStage fs o req r f).contents = f.contents := by
  unfold expandStage
  dsimp only
  split
  · split <;> split <;> rfl
  · split
    · split <;> rfl
    · rfl

theorem expandStage_realPath (fs : Fs) (o : JsLoaderOptions) (req : String) (r : Resolved)
    (f : File) : (expandStage fs o req r f).realPath = f.realPath := by
  unfold expandStage
  dsimp only
  split
  · split <;> split <;> rfl
  · split
    · split <;> rfl
    · rfl

theorem expandStage_realSize (fs : Fs) (o : JsLoaderOptions) (req : String) (r : Resolved)
    (f : File) : (expandStage fs o req r f).realSize = f.realSize := by
  unfold expandStage
  dsimp only
  split
  · split <;> split <;> rfl
  · split
    · split <;> rfl
    · rfl

theorem expandStage_size (fs : Fs) (o : JsLoaderOptions) (req : String) (r : Resolved)
    (f : File) : (expandStage fs o req r f).size = f.size := by
  unfold expandStage
  dsimp only
  split
  · split <;> split <;> rfl
  · split
    · split <;> rfl
    · rfl

theorem expandStage_variableImports (fs : Fs) (o : JsLoaderOptions) (req : String) (r : Resolved)
    (f : File) : (expandStage fs o req r f).variableImports = f.variableImports := by
  unfold expandStage
  dsimp only
  split
  · split <;> split <;> rfl
  · split
    · split <;> rfl
    · rfl

theorem expandStage_contextExpanded (fs : Fs) (o : JsLoaderOptions) (req : String) (r : Resolved)
    (f : File) (h : f.contextExpanded = false) :
    (expandStage fs o req r f).contextExpanded = contextExpandedAfter o req r f.variableImports := by
  unfold expandStage contextExpandedAfter
  dsimp only
  by_cases h1 : (isNodeModule req && r.pkg.isSome && (r.pkgPath != "")) = true
  · rw [if_pos h1, if_pos h1]
    by_cases h2 : (expandVariableFlag o f.variableImports || expandAllFlag o) = true
    · simp only [h2, if_true]
      split <;> simp [expand]
    · simp only [Bool.not_eq_true] at h2
      simp only [h2, Bool.false_eq_true, if_false]
      split <;> simp [expand, h]
  · rw [if_neg h1, if_neg h1]
    cases hctx : o.context with
    | none => exact h
    | some ctx =>
      by_cases hg : (expandVariableFlag o f.variableImports && (ctx.moduleRoot.getD "" != "")
          && !ctx.expanded) = true
      · simp only [hg, if_true]
      · simp only [Bool.not_eq_true] at hg
        simp only [hg, Bool.false_eq_true, if_false]
        exact h

theorem finishFile_absPath (fs : Fs) (o : JsLoaderOptions) (f : File) :
    (finishFile fs o f).absPath = f.absPath := by
  unfold finishFile
  dsimp only
  split <;> split <;> rfl

theorem finishFile_size (fs : Fs) (o : JsLoaderOptions) (f : File) :
    (finishFile fs o f).size = Option.some (fs.lstat f.absPath).size := by
  unfold finishFile
  dsimp only
  split <;> rfl

theorem finishFile_contents (fs : Fs) (o : JsLoaderOptions) (f : File)
    (h : o.loadContent = true) : (finishFile fs o f).contents = f.contents := by
  unfold finishFile
  dsimp only
  simp only [h, Bool.not_true, Bool.false_eq_true, if_false]
  split <;> rfl

theorem finishFile_contextExpanded (fs : Fs) (o : JsLoaderOptions) (f : File) :
    (finishFile fs o f).contextExpanded = f.contextExpanded := by
  unfold finishFile
  dsimp only
  split <;> split <;> rfl

theorem finishFile_symlink (fs : Fs) (o : JsLoaderOptions) (f : File)
    (h : (fs.lstat f.absPath).isSymbolicLink = true) :
    (finishFile fs o f).realPath = Option.some (fs.realpath f.absPath)
    ∧ (finishFile fs o f).realSize = Option.some (fs.stat f.absPath).size := by
  unfold finishFile
  dsimp only
  split <;> simp [h]

theorem finishFile_no_symlink (fs : Fs) (o : JsLoaderOptions) (f : File)
    (h : (fs.lstat f.absPath).isSymbolicLink = false) :
    (finishFile fs o f).realPath = f.realPath ∧ (finishFile fs o f).realSize = f.realSize := by
  unfold finishFile
  dsimp only
  split <;> simp [h]

/-- The normal-path shape of `load`: when resolution succeeds with a
non-empty path and parsing does not throw, `load` returns
`finishFile` applied to the expanded File, whose pre-stat fields are
characterized here. -/
theorem load_ok_shape (fs : Fs) (workingDirectory request : String) (options : JsLoaderOptions)
    (p dp : String) (dd : Option Pkg) (pr : ParseResult)
    (hres : fs.resolver workingDirectory request = ResolveOutcome.ok p dp dd)
    (hp : ¬ p = "")
    (hparse : fs.gatherDeps (fs.readFile p) (strEndsWith p ".mjs") = Except.ok pr) :
    ∃ g, load fs workingDirectory request options = LoadResult.ok (finishFile fs options g)
      ∧ g.absPath = p
      ∧ g.realPath = Option.none
      ∧ g.realSize = Option.none
      ∧ g.contents = (if ((strEndsWith p ".js" || strEndsWith p ".mjs" || options.isEntry)
            || strEndsWith p "json") then Option.some (fs.readFile p) else Option.none)
      ∧ g.variableImports = (if (strEndsWith p ".js" || strEndsWith p ".mjs" || options.isEntry)
            then pr.variableImports else false)
      ∧ g.contextExpanded = contextExpandedAfter options request
          { absPath := p, pkgPath := dp, pkg := dd, warning := "" }
          (if (strEndsWith p ".js" || strEndsWith p ".mjs" || options.isEntry)
            then pr.variableImports else false) := by
  unfold load resolve
  rw [hres]
  dsimp only
  rw [if_neg hp]
  cases hjs : (strEndsWith p ".js" || strEndsWith p ".mjs" || options.isEntry) with
  | true =>
    simp only [Bool.true_or, if_true]
    unfold parseStage
    simp only [hparse, Option.getD_some, if_pos rfl]
    refine ⟨_, rfl, ?_, ?_, ?_, ?_, ?_, ?_⟩
    · rw [expandStage_absPath]; rfl
    · rw [expandStage_realPath]; rfl
    · rw [expandStage_realSize]; rfl
    · rw [expandStage_contents]
    · rw [expandStage_variableImports]
    · rw [expandStage_contextExpanded _ _ _ _ _ rfl]
  | false =>
    simp only [Bool.false_or]
    unfold parseStage
    simp only [Bool.false_eq_true, if_false]
    cases hjson : strEndsWith p "json" with
    | true =>
      simp only [if_pos rfl]
      refine ⟨_, rfl, ?_, ?_, ?_, ?_, ?_, ?_⟩
      · rw [expandStage_absPath]; rfl
      · rw [expandStage_realPath]; rfl
      · rw [expandStage_realSize]; rfl
      · rw [expandStage_contents]; rfl
      · rw [expandStage_variableImports]; rfl
      · rw [expandStage_contextExpanded _ _ _ _ _ rfl]; rfl
    | false =>
      simp only [Bool.false_eq_true, if_false]
      refine ⟨_, rfl, ?_, ?_, ?_, ?_, ?_, ?_⟩
      · rw [expandStage_absPath]; rfl
      · rw [expandStage_realPath]; rfl
      · rw [expandStage_realSize]; rfl
      · rw [expandStage_contents]; rfl
      · rw [expandStage_variableImports]; rfl
      · rw [expandStage_contextExpanded _ _ _ _ _ rfl]; rfl

/-! ### Claim C8: symlink handling in the stat step -/

/-- C8.  Every successful load records the lstat size of the resolved path
in `size`; when the resolved path is a symbolic link it additionally
records the resolved target path in `realPath` and the followed-stat size
in `realSize`, and when it is not a symlink both stay absent. -/
theorem load_symlink_handling (fs : Fs) (workingDirectory request : String)
    (options : JsLoaderOptions) (p dp : String) (dd : Option Pkg) (pr : ParseResult)
    (hres : fs.resolver workingDirectory request = ResolveOutcome.ok p dp dd)
    (hp : ¬ p = "")
    (hparse : fs.gatherDeps (fs.readFile p) (strEndsWith p ".mjs") = Except.ok pr) :
    ∃ f, load fs workingDirectory request options = LoadResult.ok f
      ∧ f.size = Option.some (fs.lstat p).size
      ∧ ((fs.lstat p).isSymbolicLink = true →
          f.realPath = Option.some (fs.realpath p)
          ∧ f.realSize = Option.some (fs.stat p).size)
      ∧ ((fs.lstat p).isSymbolicLink = false →
          f.realPath = Option.none ∧ f.realSize = Option.none) := by
  obtain ⟨g, hload, hap, hrp, hrs, _, _, _⟩ :=
    load_ok_shape fs workingDirectory request options p dp dd pr hres hp hparse
  refine ⟨finishFile fs options g, hload, ?_, ?_, ?_⟩
  · rw [finishFile_size, hap]
  · intro hs
    have hs' : (fs.lstat g.absPath).isSymbolicLink = true := by rw [hap]; exact hs
    obtain ⟨h1, h2⟩ := finishFile_symlink fs options g hs'
    rw [h1, h2, hap]
    exact ⟨rfl, rfl⟩
  · intro hs
    have hs' : (fs.lstat g.absPath).isSymbolicLink = false := by rw [hap]; exact hs
    obtain ⟨h1, h2⟩ := finishFile_no_symlink fs options g hs'
    rw [h1, h2, hrp, hrs]
    exact ⟨rfl, rfl⟩

/-! ### Claim C10: content-read classification -/

/-- C10.  With `loadContent` left true, a successful load retains file
contents exactly when the resolved path ends in `.js` or `.mjs`, or
`options.isEntry` is set, or the path's last four characters are `json`
(no dot required); otherwise contents stay absent. -/
theorem load_content_read_classification (fs : Fs) (workingDirectory request : String)
    (options : JsLoaderOptions) (p dp : String) (dd : Option Pkg) (pr : ParseResult)
    (hres : fs.resolver workingDirectory request = ResolveOutcome.ok p dp dd)
    (hp : ¬ p = "")
    (hparse : fs.gatherDeps (fs.readFile p) (strEndsWith p ".mjs") = Except.ok pr)
    (hlc : options.loadContent = true) :
    ∃ f, load fs workingDirectory request options = LoadResult.ok f
      ∧ f.contents = (if ((strEndsWith p ".js" || strEndsWith p ".mjs" || options.isEntry)
          || strEndsWith p "json") then Option.some (fs.readFile p) else Option.none) := by
  obtain ⟨g, hload, _, _, _, hc, _, _⟩ :=
    load_ok_shape fs workingDirectory request options p dp dd pr hres hp hparse
  exact ⟨finishFile fs options g, hload, by rw [finishFile_contents fs options g hlc, hc]⟩

/-! ### Claim C5: the contextExpanded flag (corrected) -/

/-- C5 (amended).  On a successful load the `contextExpanded` flag is set
by at most one of the two mutually exclusive expansion branches, and it is
true exactly when the policy-gated expansion ran: in the package branch
when variable-or-all expansion was requested, otherwise when the
inherited-context expansion ran.  (The always-honored asset-glob expansion
can run without setting the flag, which is what refutes the claim as
originally stated.) -/
theorem load_contextExpanded_policy (fs : Fs) (workingDirectory request : String)
    (options : JsLoaderOptions) (p dp : String) (dd : Option Pkg) (pr : ParseResult) (vi : Bool)
    (hres : fs.resolver workingDirectory request = ResolveOutcome.ok p dp dd)
    (hp : ¬ p = "")
    (hparse : fs.gatherDeps (fs.readFile p) (strEndsWith p ".mjs") = Except.ok pr)
    (hvi : vi = (if (strEndsWith p ".js" || strEndsWith p ".mjs" || options.isEntry)
        then pr.variableImports else false)) :
    ∃ f, load fs workingDirectory request options = LoadResult.ok f
      ∧ f.contextExpanded = contextExpandedAfter options request
          { absPath := p, pkgPath := dp, pkg := dd, warning := "" } vi
      ∧ ((isNodeModule request && dd.isSome && (dp != "")) = true →
          f.contextExpanded = (expandVariableFlag options vi || expandAllFlag options))
      ∧ ((isNodeModule request && dd.isSome && (dp != "")) = false →
          f.contextExpanded = (match options.context with
            | Option.some ctx =>
              expandVariableFlag options vi && (ctx.moduleRoot.getD "" != "") && !ctx.expanded
            | Option.none => false)) := by
  obtain ⟨g, hload, _, _, _, _, _, hce⟩ :=
    load_ok_shape fs workingDirectory request options p dp dd pr hres hp hparse
  have hmain : (finishFile fs options g).contextExpanded = contextExpandedAfter options request
      { absPath := p, pkgPath := dp, pkg := dd, warning := "" } vi := by
    rw [finishFile_contextExpanded, hce, hvi]
  refine ⟨finishFile fs options g, hload, hmain, ?_, ?_⟩
  · intro hg
    rw [hmain]
    unfold contextExpandedAfter
    dsimp only
    rw [if_pos hg]
  · intro hg
    rw [hmain]
    unfold contextExpandedAfter
    dsimp only
    rw [if_neg (by rw [hg]; exact Bool.false_ne_true)]

/-! ### Claim C7: expansion trigger policy -/

/-- C7.  `expandVariableFlag` is true iff `options.expand` is `variable`
and the extractor reported a non-literal import; `expandAllFlag` is true
iff `options.expand` is `all`, with no dynamic-import requirement; and on
a successful package-branch load the policy-gated expansion runs (observed
through `contextExpanded`) exactly when one of the two flags is set. -/
theorem load_expansion_trigger_policy (fs : Fs) (workingDirectory request : String)
    (options : JsLoaderOptions) (p dp : String) (dd : Option Pkg) (pr : ParseResult)
    (hres : fs.resolver workingDirectory request = ResolveOutcome.ok p dp dd)
    (hp : ¬ p = "")
    (hparse : fs.gatherDeps (fs.readFile p) (strEndsWith p ".mjs") = Except.ok pr)
    (hjs : (strEndsWith p ".js" || strEndsWith p ".mjs" || options.isEntry) = true)
    (hguard : (isNodeModule request && dd.isSome && (dp != "")) = true) :
    (∀ (o : JsLoaderOptions) (vi : Bool),
      expandVariableFlag o vi = true ↔ (o.expand = ExpandMode.var ∧ vi = true))
    ∧ (∀ o : JsLoaderOptions, expandAllFlag o = true ↔ o.expand = ExpandMode.all)
    ∧ ∃ f, load fs workingDirectory request options = LoadResult.ok f
        ∧ f.contextExpanded =
            (expandVariableFlag options pr.variableImports || expandAllFlag options) := by
  refine ⟨?_, ?_, ?_⟩
  · intro o vi
    simp [expandVariableFlag]
  · intro o
    simp [expandAllFlag]
  · obtain ⟨g, hload, _, _, _, _, _, hce⟩ :=
      load_ok_shape fs workingDirectory request options p dp dd pr hres hp hparse
    refine ⟨finishFile fs options g, hload, ?_⟩
    rw [finishFile_contextExpanded, hce]
    unfold contextExpandedAfter
    dsimp only
    rw [if_pos hguard, if_pos hjs]

/-- A concrete environment for the C8 witness: the resolved path is a
symlink of lstat size 4 whose target stats to size 9. -/
def fsC8 : Fs :=
  { resolver := fun _ _ => ResolveOutcome.ok "/w/ln.js" "" Option.none,
    globby := fun _ _ => [],
    readFile := fun _ => "",
    gatherDeps := fun _ _ => Except.ok {},
    lstat := fun _ => { size := 4, isSymbolicLink := true },
    stat := fun _ => { size := 9, isSymbolicLink := false },
    realpath := fun _ => "/real/t.js" }

/-- C8 witness: the File records the link's own size 4 plus the target's
path and size 9. -/
theorem load_symlink_handling_witness :
    ∃ f, load fsC8 "/w" "./ln.js" defaultOptions = LoadResult.ok f
      ∧ f.size = Option.some 4
      ∧ f.realPath = Option.some "/real/t.js"
      ∧ f.realSize = Option.some 9 := by
  obtain ⟨f, h1, h2, h3, _⟩ := load_symlink_handling fsC8 "/w" "./ln.js" defaultOptions
    "/w/ln.js" "" Option.none {} rfl (by decide) rfl
  obtain ⟨h4, h5⟩ := h3 rfl
  exact ⟨f, h1, h2, h4, h5⟩

/-- A concrete environment for the C10 witness: the resolved path is
`/w/datajson` (last four characters `json`, no dot). -/
def fsC10 : Fs :=
  { resolver := fun _ _ => ResolveOutcome.ok "/w/datajson" "" Option.none,
    globby := fun _ _ => [],
    readFile := fun _ => "DATA",
    gatherDeps := fun _ _ => Except.ok {},
    lstat := fun _ => { size := 0, isSymbolicLink := false },
    stat := fun _ => { size := 0, isSymbolicLink := false },
    realpath := fun p => p }

/-- C10 witness: `/w/datajson` is classified JSON-like, so its contents
are read and retained. -/
theorem load_content_read_classification_witness :
    ∃ f, load fsC10 "/w" "./datajson" defaultOptions = LoadResult.ok f
      ∧ f.contents = Option.some "DATA" := by
  obtain ⟨f, h1, h2⟩ := load_content_read_classification fsC10 "/w" "./datajson" defaultOptions
    "/w/datajson" "" Option.none {} rfl (by decide) rfl rfl
  refine ⟨f, h1, ?_⟩
  rw [h2]
  rfl

/-- A concrete environment for C5: a bare request resolving into a package
that declares only asset globs, with `expand = 'none'`; glob expansion
(the asset-glob call) runs but neither policy-gated branch does. -/
def fsC5 : Fs :=
  { resolver := fun _ _ => ResolveOutcome.ok "/nm/p/main.node" "/nm/p/package.json"
      (Option.some { assetGlobs := Option.some ["**/*.txt"] }),
    globby := fun gs _ => if gs = ["**/*.txt"] then ["a.txt"] else [],
    readFile := fun _ => "",
    gatherDeps := fun _ _ => Except.ok {},
    lstat := fun _ => { size := 7, isSymbolicLink := false },
    stat := fun _ => { size := 7, isSymbolicLink := false },
    realpath := fun p => p }

/-- C5 counterexample to the claim as stated: this load returns a File
for which glob-based expansion has run (the glob-discovered key `./a.txt`
is in `deps`) while `contextExpanded` is false — so `contextExpanded` is
not `true exactly when glob-based expansion has run`. -/
theorem load_contextExpanded_counterexample :
    ∃ f, load fsC5 "/w" "p" defaultOptions = LoadResult.ok f
      ∧ f.contextExpanded = false
      ∧ depsLookup f.deps "./a.txt" = some Option.none :=
  ⟨_, rfl, rfl, rfl⟩

/-- C5 (amended) witness: on the same environment the amended
characterization applies and yields `contextExpanded = false`. -/
theorem load_contextExpanded_policy_witness :
    ∃ f, load fsC5 "/w" "p" defaultOptions = LoadResult.ok f
      ∧ f.contextExpanded = false := by
  obtain ⟨f, h1, h2, _, _⟩ := load_contextExpanded_policy fsC5 "/w" "p" defaultOptions
    "/nm/p/main.node" "/nm/p/package.json"
    (Option.some { assetGlobs := Option.some ["**/*.txt"] }) {} false
    rfl (by decide) rfl (by decide)
  refine ⟨f, h1, ?_⟩
  rw [h2]
  rfl

/-- A concrete environment for the C7 witness: a bare request resolving
into a package, with `expand = 'all'` and no dynamic imports. -/
def fsC7 : Fs :=
  { resolver := fun _ _ => ResolveOutcome.ok "/nm/p/i.js" "/nm/p/package.json"
      (Option.some {}),
    globby := fun _ _ => [],
    readFile := fun _ => "",
    gatherDeps := fun _ _ => Except.ok {},
    lstat := fun _ => { size := 0, isSymbolicLink := false },
    stat := fun _ => { size := 0, isSymbolicLink := false },
    realpath := fun p => p }

/-- C7 witness: with `expand = 'all'` and no dynamic imports the
package-branch expansion still runs. -/
theorem load_expansion_trigger_policy_witness :
    ∃ f, load fsC7 "/w" "pkg" { expand := ExpandMode.all } = LoadResult.ok f
      ∧ f.contextExpanded = true := by
  obtain ⟨_, _, f, h1, h2⟩ := load_expansion_trigger_policy fsC7 "/w" "pkg"
    { expand := ExpandMode.all } "/nm/p/i.js" "/nm/p/package.json" (Option.some {}) {}
    rfl (by decide) rfl (by decide) (by decide)
  exact ⟨f, h1, by rw [h2]; rfl⟩

/-! ### Claim C2: the self-exclusion filter (code bug) -/

/-- A concrete environment exhibiting the self-dependency leak: the
package entry `/nm/p/lib/ix.js` lives one directory below the package
root `/nm/p`, and the allowlist glob matches `lib/ix.js` — the file
itself. -/
def fsC2 : Fs :=
  { resolver := fun _ _ => ResolveOutcome.ok "/nm/p/lib/ix.js" "/nm/p/package.json"
      (Option.some { files := Option.some ["lib/**"] }),
    globby := fun gs _ => if gs = ["lib/**"] then ["lib/ix.js"] else [],
    readFile := fun _ => "",
    gatherDeps := fun _ _ => Except.ok {},
    lstat := fun _ => { size := 3, isSymbolicLink := false },
    stat := fun _ => { size := 3, isSymbolicLink := false },
    realpath := fun p => p }

/-- C2 (failing input).  The glob match `lib/ix.js` has absolute path
`/nm/p/lib/ix.js`, equal to the File's own `absPath`, yet it is kept: the
returned File carries the dependency key `./ix.js`, which resolved
against the file's directory is the file itself.  The source's filter
compares `absPath` against `join(baseDir, relDep)` — with `relDep`
relative to `fileDir`, not `baseDir` — so the self-exclusion only works
when `fileDir = baseDir`. -/
theorem load_self_dependency_leak :
    ∃ f, load fsC2 "/w" "p" { expand := ExpandMode.all } = LoadResult.ok f
      ∧ depsLookup f.deps "./ix.js" = some Option.none
      ∧ joinPath (dirname f.absPath) "./ix.js" = f.absPath :=
  ⟨_, rfl, rfl, rfl⟩
